import Mathlib

/-!
# Verification of the gpu-reseller simulation run manager

Shallow embedding of `src/api/simulation.py` (class `SimulationManager`,
the `_run_simulation` loop, and the `/simulate/telemetry` bucketing in
`recent_simulation`) together with the parts of `src/api/dao.py` they rely
on (`recent_telemetry`).

Conventions:
* Python ints are `Int` (arbitrary precision in both languages).
* Python floats (`spend_ratio`, `step_minutes`, …) are modelled as `ℚ`
  with exact arithmetic; `int(x)` is truncation toward zero, `//` is
  floor division (`Int.fdiv`), `math.ceil` is `⌈·⌉`.
* WebSockets are opaque connection identifiers (`Conn := Nat`); asyncio
  tasks are opaque task identifiers.
* Python dicts keyed by connection are association lists; Python sets of
  connections are duplicate-free lists.
-/

namespace GpuReseller

/-- Opaque websocket connection handle (`WebSocket` objects are only
compared by identity in the source). -/
abbrev Conn := Nat

/-- `SimulationRequest` (src/api/simulation.py lines 43-60): the pydantic
model of one run's configuration. -/
structure SimulationRequest where
  step_minutes : ℚ
  speed_multiplier : ℚ
  price_mode : String
  spend_ratio : ℚ
  expansion_cost_per_gpu_cents : Int
  electricity_cost_per_kwh : ℚ
  gpu_wattage_w : ℚ
  continuous : Bool
  duration_hours : Option ℚ
deriving Repr, DecidableEq

/-- The pydantic `Field` constraints of `SimulationRequest`:
`step_minutes > 0`, `speed_multiplier > 0`, `spend_ratio ∈ [0,1]`,
`expansion_cost_per_gpu_cents > 0`, `electricity_cost_per_kwh ≥ 0`,
`gpu_wattage_w ≥ 0`, `duration_hours > 0` when present. -/
def SimulationRequest.Valid (r : SimulationRequest) : Prop :=
  0 < r.step_minutes ∧ 0 < r.speed_multiplier ∧
  0 ≤ r.spend_ratio ∧ r.spend_ratio ≤ 1 ∧
  0 < r.expansion_cost_per_gpu_cents ∧
  0 ≤ r.electricity_cost_per_kwh ∧ 0 ≤ r.gpu_wattage_w ∧
  ∀ d, r.duration_hours = some d → 0 < d

/-- Python `int(q)` on a real value: truncation toward zero. -/
def pyInt (q : ℚ) : Int := if q < 0 then -⌊-q⌋ else ⌊q⌋

/-! ## Expansion arithmetic (src/api/simulation.py lines 388-395) -/

/-- Result of one step's reinvestment computation. -/
structure ExpansionResult where
  available_capital : Int
  spend_budget : Int
  affordable_gpus : Int
  planned_gpus : Int
  new_gpus : Int
  spent_capex : Int
deriving Repr, DecidableEq

/-- Lines 388-395 of `_run_simulation`:
```
available_capital = max(state["capital_cents"] + max(profit_total, 0), 0)
spend_budget = int(available_capital * request.spend_ratio)
affordable_gpus = available_capital // gpu_cost if gpu_cost > 0 else 0
planned_gpus = spend_budget // gpu_cost if gpu_cost > 0 else 0
new_gpus = int(min(planned_gpus, affordable_gpus)) if gpu_cost > 0 else 0
spent_capex = new_gpus * gpu_cost
```
Python `//` on ints is floor division, hence `Int.fdiv`. -/
def expansionStep (capital_cents profit_total : Int) (spend_ratio : ℚ)
    (gpu_cost : Int) : ExpansionResult :=
  let available_capital := max (capital_cents + max profit_total 0) 0
  let spend_budget := pyInt ((available_capital : ℚ) * spend_ratio)
  let affordable_gpus := if 0 < gpu_cost then Int.fdiv available_capital gpu_cost else 0
  let planned_gpus := if 0 < gpu_cost then Int.fdiv spend_budget gpu_cost else 0
  let new_gpus := if 0 < gpu_cost then min planned_gpus affordable_gpus else 0
  { available_capital := available_capital
    spend_budget := spend_budget
    affordable_gpus := affordable_gpus
    planned_gpus := planned_gpus
    new_gpus := new_gpus
    spent_capex := new_gpus * gpu_cost }

/-! ## Loop timing and termination (src/api/simulation.py lines 269-274, 502-505) -/

/-- `step_hours = request.step_minutes / 60.0` (line 270). -/
def stepHours (r : SimulationRequest) : ℚ := r.step_minutes / 60

/-- `sleep_seconds = max(0.01, (step_hours * 3600.0) / request.speed_multiplier)`
(line 271). -/
def sleepSeconds (r : SimulationRequest) : ℚ :=
  max (1 / 100) (stepHours r * 3600 / r.speed_multiplier)

/-- Lines 272-274:
```
max_steps = None
if not request.continuous and request.duration_hours:
    max_steps = max(1, math.ceil(request.duration_hours / step_hours))
```
Python truthiness: `request.duration_hours` is falsy when it is `None` or
`0.0`, hence the `d ≠ 0` guard. -/
def maxSteps (r : SimulationRequest) : Option Int :=
  match r.duration_hours with
  | none => none
  | some d =>
      if !r.continuous && d ≠ 0 then some (max 1 ⌈d / stepHours r⌉) else none

/-- The break test at lines 503-504, executed after `step_index += 1`:
`if max_steps and step_index >= max_steps: break`.  Python truthiness again:
a `max_steps` of `None` or `0` never breaks. -/
def shouldBreak (ms : Option Int) (step_index : Int) : Bool :=
  match ms with
  | none => false
  | some m => m ≠ 0 && m ≤ step_index

/-- Number of loop iterations executed by `_run_simulation`'s `while True`
starting from `step_index`, cut off after `fuel` iterations (the fuel models
the unbounded continuous mode; a bounded run must terminate within its own
budget regardless of fuel).  Each iteration runs the body once, increments
`step_index` and then evaluates the break test (lines 502-504). -/
def loopIterations (ms : Option Int) : Nat → Int → Nat
  | 0, _ => 0
  | fuel + 1, step_index =>
      if shouldBreak ms (step_index + 1) then 1
      else 1 + loopIterations ms fuel (step_index + 1)

/-- A concrete valid bounded configuration: 30-minute steps for 2 simulated
hours (`step_hours = 1/2`, `max_steps = 4`). -/
def exampleRequest : SimulationRequest :=
  { step_minutes := 30, speed_multiplier := 3600, price_mode := "standard",
    spend_ratio := 1 / 4, expansion_cost_per_gpu_cents := 40000,
    electricity_cost_per_kwh := 65 / 1000, gpu_wattage_w := 240,
    continuous := false, duration_hours := some 2 }

/-! ## The manager's in-memory state (src/api/simulation.py lines 63-79)

`SimulationManager.__init__` holds: the run task, the current request, the
client set, the heartbeat and watchdog dicts, the latest payload and the
run counters.  Connections are opaque ids; dicts keyed by connection are
association lists; the client set is a duplicate-free list. -/

/-- A broadcast payload (a JSON dict in the source).  The manager itself
inspects only `payload["iteration"]` (always the loop's `step_index + 1`,
an int) and `payload["finance"]`; the rest is opaque and modelled by an
opaque body identifier. -/
structure Payload where
  iteration : Int
  finance : Nat
  body : Nat
deriving Repr, DecidableEq

/-- Python dict lookup on an association list keyed by connection. -/
def alookup {α : Type} : List (Conn × α) → Conn → Option α
  | [], _ => none
  | (k, v) :: rest, c => if k = c then some v else alookup rest c

/-- Python `dict.pop(c, None)` / `del d[c]`: drop the binding for `c`. -/
def aremove {α : Type} (l : List (Conn × α)) (c : Conn) : List (Conn × α) :=
  l.filter (fun p => p.1 ≠ c)

/-- Python `d[c] = v`: bind `c` to `v` (replacing any previous binding;
association-list position is irrelevant to dict semantics, which are
lookup-based). -/
def aset {α : Type} (l : List (Conn × α)) (c : Conn) (v : α) : List (Conn × α) :=
  (c, v) :: aremove l c

/-- The mutable fields of `SimulationManager` (lines 64-79).  `task` is the
id of the current `asyncio.Task` (if any) and `taskDone` models
`self._task.done()`. -/
structure ManagerState where
  task : Option Nat
  taskDone : Bool
  currentRequest : Option SimulationRequest
  clients : List Conn
  lastHeartbeat : List (Conn × ℚ)
  watchdogs : List (Conn × Nat)
  latestPayload : Option Payload
  currentIteration : Int
  messagesSent : Nat
  disconnects : Nat
  lastBroadcastAt : Option ℚ
  financeSnapshot : Option Nat
deriving Repr, DecidableEq

/-- `SimulationManager.__init__`: everything empty / zero. -/
def initialState : ManagerState :=
  { task := none, taskDone := false, currentRequest := none, clients := [],
    lastHeartbeat := [], watchdogs := [], latestPayload := none,
    currentIteration := 0, messagesSent := 0, disconnects := 0,
    lastBroadcastAt := none, financeSnapshot := none }

/-- `is_running` (lines 209-210): `self._task is not None and not self._task.done()`. -/
def isRunning (s : ManagerState) : Bool := s.task.isSome && !s.taskDone

/-- Observable events emitted by the manager, used to state ordering
properties: websocket closes (with close code and reason), task creation,
and the run loop's per-step persistence writes, transaction commit
(`db.commit()`, line 499) and broadcast hand-off (line 501). -/
inductive Event where
  | closeConn (c : Conn) (code : Nat) (reason : String)
  | taskCreated (tid : Nat)
  | persistStep (tid step : Nat)
  | commitStep (tid step : Nat)
  | broadcastStep (tid step : Nat)
deriving Repr, DecidableEq

/-- `_add_connection` (lines 220-225): add to the client set, stamp the
heartbeat, spawn and record the watchdog task `wid`. -/
def addConnection (s : ManagerState) (ws : Conn) (now : ℚ) (wid : Nat) : ManagerState :=
  { s with
    clients := if ws ∈ s.clients then s.clients else ws :: s.clients,
    lastHeartbeat := aset s.lastHeartbeat ws now,
    watchdogs := aset s.watchdogs ws wid }

/-- `_cleanup_connection` (lines 227-243): remove the connection from the
client set, the heartbeat dict and the watchdog dict; `removed` is set when
it was present in the client set or the heartbeat dict, and only then is
the disconnect counter incremented.  (Cancelling the popped watchdog task
is an external effect on that task.) -/
def cleanupConnection (s : ManagerState) (ws : Conn) : ManagerState :=
  let removed : Bool := ws ∈ s.clients || (alookup s.lastHeartbeat ws).isSome
  { s with
    clients := s.clients.filter (fun c => c ≠ ws),
    lastHeartbeat := aremove s.lastHeartbeat ws,
    watchdogs := aremove s.watchdogs ws,
    disconnects := if removed then s.disconnects + 1 else s.disconnects }

/-- `update_heartbeat` (lines 149-152): refresh the stamp only while the
connection is still registered. -/
def updateHeartbeat (s : ManagerState) (ws : Conn) (now : ℚ) : ManagerState :=
  if ws ∈ s.clients then { s with lastHeartbeat := aset s.lastHeartbeat ws now } else s

/-- The loop of `_close_all_clients` (lines 215-218) over a snapshot of the
client set: close each connection with code 1000 and the given reason
(failures suppressed), then clean it up.  Also returns the close events in
order. -/
def closeAllLoop (reason : String) : ManagerState → List Conn → ManagerState × List Event
  | s, [] => (s, [])
  | s, c :: rest =>
      let s1 := cleanupConnection s c
      let (s2, evs) := closeAllLoop reason s1 rest
      (s2, Event.closeConn c 1000 reason :: evs)

/-- `_close_all_clients` (lines 212-218): snapshot the client set under the
state lock, then close and clean up each connection. -/
def closeAllClients (s : ManagerState) (reason : String) : ManagerState × List Event :=
  closeAllLoop reason s s.clients

/-- `_stop_locked` (lines 96-103): cancel and await the run task when one
is present and not done (an effect on that task, awaited to completion
before anything else happens), clear the task handle and the current
request, then close every connection with reason `"simulation stopped"`. -/
def stopLocked (s : ManagerState) : ManagerState × List Event :=
  closeAllClients { s with task := none, currentRequest := none } "simulation stopped"

/-- `stop` (lines 92-94): `_stop_locked` under the lifecycle lock. -/
def stop (s : ManagerState) : ManagerState × List Event := stopLocked s

/-- `start` (lines 81-90), under the lifecycle lock: run the stop sequence
fully, reset the run counters and caches, then create the new run task
`tid`.  Events: the prior connections' closes, then the task creation. -/
def start (s : ManagerState) (req : SimulationRequest) (tid : Nat) :
    ManagerState × List Event :=
  let (s1, evs) := stopLocked s
  ({ s1 with
      currentRequest := some req,
      currentIteration := 0,
      messagesSent := 0,
      disconnects := 0,
      latestPayload := none,
      financeSnapshot := none,
      task := some tid, taskDone := false },
    evs ++ [Event.taskCreated tid])

/-- The send loop of `broadcast` (lines 139-147) over a snapshot of the
client set.  `sendOk c` says whether `c.send_json(payload)` succeeds.  On
success the heartbeat is refreshed; on failure the connection is closed
with code 1011 reason `"send failure"` (suppressed) and cleaned up.
Returns the final state, the connections that received the payload, and
the close events. -/
def broadcastSend (sendOk : Conn → Bool) (now : ℚ) :
    ManagerState → List Conn → ManagerState × List Conn × List Event
  | s, [] => (s, [], [])
  | s, c :: rest =>
      if sendOk c then
        let s1 := updateHeartbeat s c now
        let (s2, delivered, evs) := broadcastSend sendOk now s1 rest
        (s2, c :: delivered, evs)
      else
        let s1 := cleanupConnection s c
        let (s2, delivered, evs) := broadcastSend sendOk now s1 rest
        (s2, delivered, Event.closeConn c 1011 "send failure" :: evs)

/-- The effect of a run of successful sends: refresh each connection's
heartbeat in order (the success branch of the send loop, lines 141-142). -/
def refreshAll (now : ℚ) (s : ManagerState) (l : List Conn) : ManagerState :=
  l.foldl (fun acc c => updateHeartbeat acc c now) s

/-- The locked section of `broadcast` (lines 128-137): record the payload
as latest, stamp the broadcast time, cache `payload["iteration"]` and
`payload["finance"]`, and bump `messages_sent`; the client set is
snapshotted in the same critical section. -/
def broadcastLocked (s : ManagerState) (p : Payload) (now : ℚ) : ManagerState :=
  { s with
    latestPayload := some p,
    lastBroadcastAt := some now,
    currentIteration := p.iteration,
    financeSnapshot := some p.finance,
    messagesSent := s.messagesSent + 1 }

/-- `broadcast` (lines 127-147): the locked bookkeeping section, then the
send loop over the snapshotted client set outside the lock. -/
def broadcast (sendOk : Conn → Bool) (s : ManagerState) (p : Payload) (now : ℚ) :
    ManagerState × List Conn × List Event :=
  broadcastSend sendOk now (broadcastLocked s p now) (broadcastLocked s p now).clients

/-- The entry of `register` (lines 105-111): `_add_connection`, then — when
a latest payload exists — a catch-up send of that payload whose failure is
suppressed (`with suppress(Exception)`); only a successful send refreshes
the heartbeat. -/
def registerEntry (s : ManagerState) (ws : Conn) (now now2 : ℚ) (wid : Nat)
    (catchupOk : Bool) : ManagerState :=
  let s1 := addConnection s ws now wid
  match s1.latestPayload with
  | none => s1
  | some _ => if catchupOk then updateHeartbeat s1 ws now2 else s1

/-- Events of one iteration of the `_run_simulation` loop (lines 282-505),
in program order: the step's persistence writes (region financials, region
stats, telemetry rows, world state — lines 337-461), the transaction commit
(`db.commit()`, line 499), then the broadcast hand-off (line 501). -/
def stepTrace (tid step : Nat) : List Event :=
  [Event.persistStep tid step, Event.commitStep tid step, Event.broadcastStep tid step]

/-- Event trace of the first `n` iterations of run task `tid`. -/
def runTrace (tid : Nat) : Nat → List Event
  | 0 => []
  | n + 1 => runTrace tid n ++ stepTrace tid n

/-- `start` followed by `steps` iterations of the new run task: the state
after `start` returns, and the combined event trace (the new task's events
all occur after `start`'s, since `start` awaits the old task and only then
creates the new one). -/
def startThenRun (s : ManagerState) (req : SimulationRequest) (tid : Nat)
    (steps : Nat) : ManagerState × List Event :=
  let (s1, evs) := start s req tid
  (s1, evs ++ runTrace tid steps)

/-- Registry coherence: a connection is in the client set iff it has a
heartbeat entry iff it has a watchdog handle. -/
def coherent (s : ManagerState) : Prop :=
  ∀ c : Conn,
    (c ∈ s.clients ↔ (alookup s.lastHeartbeat c).isSome = true) ∧
    (c ∈ s.clients ↔ (alookup s.watchdogs c).isSome = true)

/-- One observable operation of the manager, as implemented in
`simulation.py`: connection registration, cleanup (send failure, watchdog
timeout, listener exit), heartbeat refresh, a full broadcast, close-all,
`stop` and `start`. -/
inductive ManagerStep : ManagerState → ManagerState → Prop
  | add (s : ManagerState) (ws : Conn) (now : ℚ) (wid : Nat) :
      ManagerStep s (addConnection s ws now wid)
  | register (s : ManagerState) (ws : Conn) (now now2 : ℚ) (wid : Nat) (ok : Bool) :
      ManagerStep s (registerEntry s ws now now2 wid ok)
  | cleanup (s : ManagerState) (ws : Conn) :
      ManagerStep s (cleanupConnection s ws)
  | heartbeat (s : ManagerState) (ws : Conn) (now : ℚ) :
      ManagerStep s (updateHeartbeat s ws now)
  | broadcastOp (s : ManagerState) (sendOk : Conn → Bool) (p : Payload) (now : ℚ) :
      ManagerStep s (broadcast sendOk s p now).1
  | closeAll (s : ManagerState) (reason : String) :
      ManagerStep s (closeAllClients s reason).1
  | stopOp (s : ManagerState) :
      ManagerStep s (stop s).1
  | startOp (s : ManagerState) (req : SimulationRequest) (tid : Nat) :
      ManagerStep s (start s req tid).1

/-- States reachable from the freshly constructed manager. -/
def Reachable (s : ManagerState) : Prop :=
  Relation.ReflTransGen ManagerStep initialState s

/-- A manager state with three registered connections 5, 6, 7. -/
def threeClients : ManagerState :=
  { initialState with
    clients := [5, 6, 7],
    lastHeartbeat := [(5, 0), (6, 0), (7, 0)],
    watchdogs := [(5, 1), (6, 2), (7, 3)] }

/-- A send outcome in which exactly connection 6 fails. -/
def failSix : Conn → Bool := fun c => c != 6

/-- A manager state with no run task (idle) but one registered connection
(id 7, heartbeat stamped at 0, watchdog task 1). -/
def idleWithClient : ManagerState :=
  { initialState with clients := [7], lastHeartbeat := [(7, 0)], watchdogs := [(7, 1)] }

/-- A manager state as left mid-way through a first run: task 1 running,
a stored request, a latest payload, run counters advanced, a last-broadcast
timestamp of 99, and one registered connection (id 7). -/
def afterFirstRun : ManagerState :=
  { task := some 1, taskDone := false, currentRequest := some exampleRequest,
    clients := [7], lastHeartbeat := [(7, 10)], watchdogs := [(7, 2)],
    latestPayload := some ⟨3, 0, 0⟩, currentIteration := 3, messagesSent := 3,
    disconnects := 0, lastBroadcastAt := some 99, financeSnapshot := some 0 }

/-! ## Telemetry rows and the `/simulate/telemetry` bucketing
(src/api/dao.py lines 206-228; src/api/simulation.py lines 553-620) -/

/-- One row of the `telemetry` table as returned by `recent_telemetry`
(joined with the region code).  Timestamps are modelled as naturals, which
preserves the ordering and equality of the datetimes (and of their
isoformat strings, used as bucket keys).  `electricity_cost_per_kwh` and
`gpu_wattage_w` are always written by `record_telemetry`, hence
non-optional. -/
structure TelemetryRow where
  region_id : Nat
  code : String
  ts : Nat
  gpu_utilization : ℚ
  revenue_cents : Int
  cost_cents : Int
  capital_cents : Int
  total_spent_cents : Int
  electricity_cost_per_kwh : ℚ
  gpu_wattage_w : ℚ
deriving Repr, DecidableEq

/-- Round half to even (Python's `round`) to an integer. -/
def roundHalfEven (q : ℚ) : Int :=
  if q - ⌊q⌋ < 1 / 2 then ⌊q⌋
  else if 1 / 2 < q - ⌊q⌋ then ⌊q⌋ + 1
  else if ⌊q⌋ % 2 = 0 then ⌊q⌋ else ⌊q⌋ + 1

/-- Python's `round(x, 2)`. -/
def round2 (q : ℚ) : ℚ := (roundHalfEven (q * 100) : ℚ) / 100

/-- Insert a row into a ts-descending-sorted list (ties keep insertion
order stable). -/
def insertTsDesc (r : TelemetryRow) : List TelemetryRow → List TelemetryRow
  | [] => [r]
  | x :: xs => if x.ts ≤ r.ts then r :: x :: xs else x :: insertTsDesc r xs

/-- `ORDER BY t.ts DESC` over the telemetry table. -/
def orderByTsDesc : List TelemetryRow → List TelemetryRow
  | [] => []
  | r :: rs => insertTsDesc r (orderByTsDesc rs)

/-- `recent_telemetry(db, limit)` (dao.py lines 206-228): the telemetry
rows ordered by `ts DESC`, limited to `limit` (`LIMIT :limit`). -/
def recent_telemetry (table : List TelemetryRow) (limit : Nat) : List TelemetryRow :=
  (orderByTsDesc table).take limit

/-- One region entry of a telemetry point (simulation.py lines 589-597). -/
structure RegionPoint where
  code : String
  utilization : ℚ
  revenue_cents : Int
  cost_cents : Int
  profit_cents : Int
deriving Repr, DecidableEq

/-- One bucket (point) of the `/simulate/telemetry` response: all regions
sharing one timestamp, with its totals and finance sub-object
(simulation.py lines 566-582 and 602-617). -/
structure TelemetryPoint where
  timestamp : Nat
  regions : List RegionPoint
  revenue_cents : Int
  cost_cents : Int
  profit_cents : Int
  avg_utilization : ℚ
  capital_cents : Int
  total_spent_cents : Int
  electricity_cost_per_kwh : ℚ
  gpu_wattage_w : ℚ
  finance_profit_cents : Int
  energy_cost_per_gpu_hour : ℚ
deriving Repr, DecidableEq

/-- The region entry appended for one row (lines 585-597):
`profit_cents = revenue - cost`, utilization as a rounded percentage. -/
def mkRegionPoint (row : TelemetryRow) : RegionPoint :=
  { code := row.code,
    utilization := round2 (row.gpu_utilization * 100),
    revenue_cents := row.revenue_cents,
    cost_cents := row.cost_cents,
    profit_cents := row.revenue_cents - row.cost_cents }

/-- A freshly created bucket for a new timestamp key (lines 566-582):
zeroed totals, finance seeded from the first row of the bucket. -/
def freshPoint (row : TelemetryRow) : TelemetryPoint :=
  { timestamp := row.ts, regions := [],
    revenue_cents := 0, cost_cents := 0, profit_cents := 0,
    avg_utilization := 0,
    capital_cents := row.capital_cents,
    total_spent_cents := row.total_spent_cents,
    electricity_cost_per_kwh := row.electricity_cost_per_kwh,
    gpu_wattage_w := row.gpu_wattage_w,
    finance_profit_cents := 0, energy_cost_per_gpu_hour := 0 }

/-- Appending one row to its bucket (lines 585-600): push the region entry
and accumulate the revenue/cost totals. -/
def addRowToPoint (pt : TelemetryPoint) (row : TelemetryRow) : TelemetryPoint :=
  { pt with
    regions := pt.regions ++ [mkRegionPoint row],
    revenue_cents := pt.revenue_cents + row.revenue_cents,
    cost_cents := pt.cost_cents + row.cost_cents }

/-- One iteration of the first pass (lines 564-600): if the row's
timestamp key already has a bucket, update that bucket, otherwise append a
fresh bucket (preserving first-appearance key order) and update it. -/
def bucketStep (acc : List TelemetryPoint) (row : TelemetryRow) :
    List TelemetryPoint :=
  if acc.any (fun pt => pt.timestamp = row.ts) then
    acc.map (fun pt => if pt.timestamp = row.ts then addRowToPoint pt row else pt)
  else
    acc ++ [addRowToPoint (freshPoint row) row]

/-- First pass of `recent_simulation` over `reversed(rows)`. -/
def buildPoints (rows : List TelemetryRow) : List TelemetryPoint :=
  rows.foldl bucketStep []

/-- Second pass (lines 602-617): recompute `profit_cents` from the
accumulated totals, average the region utilizations (when any), copy the
profit into the finance sub-object and derive the energy cost (both
electricity fields are always present on rows written by
`record_telemetry`). -/
def finalizePoint (pt : TelemetryPoint) : TelemetryPoint :=
  { pt with
    profit_cents := pt.revenue_cents - pt.cost_cents,
    avg_utilization :=
      if pt.regions.length = 0 then pt.avg_utilization
      else round2 ((pt.regions.map (fun rp => rp.utilization)).sum /
        (pt.regions.length : ℚ)),
    finance_profit_cents := pt.revenue_cents - pt.cost_cents,
    energy_cost_per_gpu_hour :=
      (pt.gpu_wattage_w / 1000) * pt.electricity_cost_per_kwh }

/-- `recent_simulation(limit)` (simulation.py lines 553-620): bucket the
reversed `recent_telemetry` rows, finalize each bucket, and return
`points[-limit:]` (Python slice semantics: `[-0:]` is the whole list). -/
def recent_simulation (table : List TelemetryRow) (limit : Nat) :
    List TelemetryPoint :=
  let rows := recent_telemetry table limit
  let points := (buildPoints rows.reverse).map finalizePoint
  if limit = 0 then points else points.drop (points.length - limit)

/-- A two-region, two-timestamp telemetry table. -/
def exampleTable : List TelemetryRow :=
  [{ region_id := 1, code := "us-east", ts := 2, gpu_utilization := 1 / 2,
     revenue_cents := 100, cost_cents := 30, capital_cents := 1000,
     total_spent_cents := 0, electricity_cost_per_kwh := 65 / 1000,
     gpu_wattage_w := 240 },
   { region_id := 2, code := "eu-west", ts := 2, gpu_utilization := 3 / 4,
     revenue_cents := 200, cost_cents := 80, capital_cents := 1000,
     total_spent_cents := 0, electricity_cost_per_kwh := 65 / 1000,
     gpu_wattage_w := 240 },
   { region_id := 1, code := "us-east", ts := 1, gpu_utilization := 1 / 4,
     revenue_cents := 50, cost_cents := 20, capital_cents := 900,
     total_spent_cents := 0, electricity_cost_per_kwh := 65 / 1000,
     gpu_wattage_w := 240 }]

/-! ## Dictionary (association list) lemmas -/

theorem alookup_aset_self {α : Type} (l : List (Conn × α)) (c : Conn) (v : α) :
    alookup (aset l c v) c = some v := by
  simp [aset, alookup]

theorem aremove_cons_self {α : Type} (k : Conn) (v : α) (rest : List (Conn × α)) :
    aremove ((k, v) :: rest) k = aremove rest k := by
  simp [aremove, List.filter_cons]

theorem aremove_cons_ne {α : Type} {k c : Conn} (v : α) (rest : List (Conn × α))
    (hk : k ≠ c) : aremove ((k, v) :: rest) c = (k, v) :: aremove rest c := by
  simp [aremove, List.filter_cons, hk]

theorem alookup_aremove_ne {α : Type} (l : List (Conn × α)) {c c' : Conn}
    (h : c' ≠ c) : alookup (aremove l c) c' = alookup l c' := by
  induction l with
  | nil => rfl
  | cons p rest ih =>
      obtain ⟨k, v⟩ := p
      by_cases hk : k = c
      · subst hk
        have hkc' : k ≠ c' := fun he => h he.symm
        rw [aremove_cons_self, ih]
        simp [alookup, hkc']
      · rw [aremove_cons_ne v rest hk]
        simp only [alookup]
        by_cases hkc : k = c'
        · simp [hkc]
        · simp only [if_neg hkc]
          exact ih

theorem alookup_aremove_self {α : Type} (l : List (Conn × α)) (c : Conn) :
    alookup (aremove l c) c = none := by
  induction l with
  | nil => rfl
  | cons p rest ih =>
      obtain ⟨k, v⟩ := p
      by_cases hk : k = c
      · subst hk
        rw [aremove_cons_self]
        exact ih
      · rw [aremove_cons_ne v rest hk]
        simp only [alookup, if_neg hk]
        exact ih

theorem alookup_aset_ne {α : Type} (l : List (Conn × α)) {c c' : Conn} (v : α)
    (h : c' ≠ c) : alookup (aset l c v) c' = alookup l c' := by
  have hne : c ≠ c' := fun he => h he.symm
  simp only [aset, alookup, if_neg hne]
  exact alookup_aremove_ne l h

/-! ## Frame lemmas: fields each operation leaves unchanged -/

theorem updateHeartbeat_frame (s : ManagerState) (ws : Conn) (now : ℚ) :
    (updateHeartbeat s ws now).clients = s.clients ∧
    (updateHeartbeat s ws now).watchdogs = s.watchdogs ∧
    (updateHeartbeat s ws now).disconnects = s.disconnects ∧
    (updateHeartbeat s ws now).messagesSent = s.messagesSent ∧
    (updateHeartbeat s ws now).latestPayload = s.latestPayload ∧
    (updateHeartbeat s ws now).lastBroadcastAt = s.lastBroadcastAt ∧
    (updateHeartbeat s ws now).task = s.task ∧
    (updateHeartbeat s ws now).currentRequest = s.currentRequest := by
  unfold updateHeartbeat
  split <;> exact ⟨rfl, rfl, rfl, rfl, rfl, rfl, rfl, rfl⟩

theorem updateHeartbeat_clients (s : ManagerState) (ws : Conn) (now : ℚ) :
    (updateHeartbeat s ws now).clients = s.clients :=
  (updateHeartbeat_frame s ws now).1

theorem updateHeartbeat_lookup_self {s : ManagerState} {ws : Conn} (now : ℚ)
    (h : ws ∈ s.clients) :
    alookup (updateHeartbeat s ws now).lastHeartbeat ws = some now := by
  unfold updateHeartbeat
  rw [if_pos h]
  exact alookup_aset_self _ _ _

theorem updateHeartbeat_lookup_ne {s : ManagerState} {ws c : Conn} (now : ℚ)
    (h : c ≠ ws) :
    alookup (updateHeartbeat s ws now).lastHeartbeat c = alookup s.lastHeartbeat c := by
  unfold updateHeartbeat
  split
  · exact alookup_aset_ne _ _ h
  · rfl

theorem closeAllLoop_cons (reason : String) (s : ManagerState) (c : Conn)
    (rest : List Conn) :
    closeAllLoop reason s (c :: rest) =
      ((closeAllLoop reason (cleanupConnection s c) rest).1,
        Event.closeConn c 1000 reason ::
          (closeAllLoop reason (cleanupConnection s c) rest).2) := rfl

theorem closeAllLoop_frame (reason : String) (l : List Conn) (s : ManagerState) :
    (closeAllLoop reason s l).1.task = s.task ∧
    (closeAllLoop reason s l).1.taskDone = s.taskDone ∧
    (closeAllLoop reason s l).1.currentRequest = s.currentRequest ∧
    (closeAllLoop reason s l).1.currentIteration = s.currentIteration ∧
    (closeAllLoop reason s l).1.messagesSent = s.messagesSent ∧
    (closeAllLoop reason s l).1.latestPayload = s.latestPayload ∧
    (closeAllLoop reason s l).1.lastBroadcastAt = s.lastBroadcastAt ∧
    (closeAllLoop reason s l).1.financeSnapshot = s.financeSnapshot := by
  induction l generalizing s with
  | nil => exact ⟨rfl, rfl, rfl, rfl, rfl, rfl, rfl, rfl⟩
  | cons c rest ih => exact ih (cleanupConnection s c)

theorem closeAllLoop_events (reason : String) (l : List Conn) (s : ManagerState) :
    (closeAllLoop reason s l).2 =
      l.map (fun c => Event.closeConn c 1000 reason) := by
  induction l generalizing s with
  | nil => rfl
  | cons c rest ih =>
      rw [closeAllLoop_cons, List.map_cons]
      exact congrArg _ (ih (cleanupConnection s c))

theorem closeAllLoop_clients (reason : String) (l : List Conn) (s : ManagerState) :
    (closeAllLoop reason s l).1.clients =
      s.clients.filter (fun x => !(l.contains x)) := by
  induction l generalizing s with
  | nil => simp [closeAllLoop]
  | cons c rest ih =>
      rw [closeAllLoop_cons]
      show (closeAllLoop reason (cleanupConnection s c) rest).1.clients = _
      rw [ih (cleanupConnection s c)]
      show (s.clients.filter (fun x => x ≠ c)).filter (fun x => !(rest.contains x)) = _
      rw [List.filter_filter]
      refine List.filter_congr ?_
      intro x _
      by_cases hx : x = c <;> simp [hx, List.contains_cons]

theorem closeAllLoop_disconnects (reason : String) (l : List Conn)
    (s : ManagerState) (hnd : l.Nodup) (hsub : ∀ c ∈ l, c ∈ s.clients) :
    (closeAllLoop reason s l).1.disconnects = s.disconnects + l.length := by
  induction l generalizing s with
  | nil => rfl
  | cons c rest ih =>
      rw [closeAllLoop_cons]
      show (closeAllLoop reason (cleanupConnection s c) rest).1.disconnects = _
      have hc : c ∈ s.clients := hsub c (List.mem_cons_self c rest)
      have hrest : ∀ x ∈ rest, x ∈ (cleanupConnection s c).clients := by
        intro x hx
        have hxs : x ∈ s.clients := hsub x (List.mem_cons_of_mem c hx)
        have hxc : x ≠ c := fun he => (List.nodup_cons.mp hnd).1 (he ▸ hx)
        show x ∈ s.clients.filter (fun y => y ≠ c)
        rw [List.mem_filter]
        exact ⟨hxs, by simp [hxc]⟩
      rw [ih (cleanupConnection s c) (List.nodup_cons.mp hnd).2 hrest]
      show (if (c ∈ s.clients || (alookup s.lastHeartbeat c).isSome : Bool)
        then s.disconnects + 1 else s.disconnects) + rest.length = _
      rw [if_pos (by simp [hc])]
      simp only [List.length_cons]
      omega

/-! ## Trace lemmas for the run loop -/

theorem runTrace_length (tid n : Nat) : (runTrace tid n).length = 3 * n := by
  induction n with
  | zero => rfl
  | succ m ih =>
      show (runTrace tid m ++ stepTrace tid m).length = _
      rw [List.length_append, ih]
      simp [stepTrace]
      omega

theorem runTrace_commit_at (tid : Nat) {n k : Nat} (hk : k < n) :
    (runTrace tid n)[3 * k + 1]? = some (Event.commitStep tid k) := by
  induction n with
  | zero => omega
  | succ m ih =>
      show (runTrace tid m ++ stepTrace tid m)[3 * k + 1]? = _
      by_cases hkm : k < m
      · rw [List.getElem?_append_left (by rw [runTrace_length]; omega)]
        exact ih hkm
      · have hkm' : k = m := by omega
        subst hkm'
        rw [List.getElem?_append_right (by rw [runTrace_length]; omega)]
        rw [runTrace_length]
        have h1 : 3 * k + 1 - 3 * k = 1 := by omega
        rw [h1]
        rfl

theorem runTrace_broadcast_position (tid : Nat) {n j k : Nat}
    (h : (runTrace tid n)[j]? = some (Event.broadcastStep tid k)) :
    j = 3 * k + 2 ∧ k < n := by
  induction n with
  | zero => simp [runTrace] at h
  | succ m ih =>
      rw [show runTrace tid (m + 1) = runTrace tid m ++ stepTrace tid m from rfl]
        at h
      by_cases hj : j < (runTrace tid m).length
      · rw [List.getElem?_append_left hj] at h
        have := ih h
        omega
      · rw [List.getElem?_append_right (by omega)] at h
        rw [runTrace_length] at h hj
        have hlt : j - 3 * m < (stepTrace tid m).length := by
          obtain ⟨hl, _⟩ := List.getElem?_eq_some.mp h
          exact hl
        simp only [stepTrace, List.length_cons, List.length_nil] at hlt
        rcases (by omega : j - 3 * m = 0 ∨ j - 3 * m = 1 ∨ j - 3 * m = 2) with
          h0 | h1 | h2
        · rw [h0] at h
          simp [stepTrace] at h
        · rw [h1] at h
          simp [stepTrace] at h
        · rw [h2] at h
          simp only [stepTrace] at h
          have : Event.broadcastStep tid m = Event.broadcastStep tid k :=
            Option.some.inj h
          have hkm : m = k := by
            cases this
            rfl
          omega

/-! ## Lemmas on the broadcast send loop -/

theorem broadcastSend_cons_ok (sendOk : Conn → Bool) (now : ℚ) (s : ManagerState)
    {c : Conn} (rest : List Conn) (h : sendOk c = true) :
    broadcastSend sendOk now s (c :: rest) =
      ((broadcastSend sendOk now (updateHeartbeat s c now) rest).1,
        c :: (broadcastSend sendOk now (updateHeartbeat s c now) rest).2.1,
        (broadcastSend sendOk now (updateHeartbeat s c now) rest).2.2) := by
  simp [broadcastSend, h]

theorem broadcastSend_cons_fail (sendOk : Conn → Bool) (now : ℚ)
    (s : ManagerState) {c : Conn} (rest : List Conn) (h : sendOk c = false) :
    broadcastSend sendOk now s (c :: rest) =
      ((broadcastSend sendOk now (cleanupConnection s c) rest).1,
        (broadcastSend sendOk now (cleanupConnection s c) rest).2.1,
        Event.closeConn c 1011 "send failure" ::
          (broadcastSend sendOk now (cleanupConnection s c) rest).2.2) := by
  simp [broadcastSend, h]

theorem broadcastSend_all_ok (sendOk : Conn → Bool) (now : ℚ) (l : List Conn)
    (s : ManagerState) (h : ∀ c ∈ l, sendOk c = true) :
    broadcastSend sendOk now s l = (refreshAll now s l, l, []) := by
  induction l generalizing s with
  | nil => rfl
  | cons c rest ih =>
      rw [broadcastSend_cons_ok sendOk now s rest (h c (List.mem_cons_self c rest))]
      rw [ih (updateHeartbeat s c now) (fun x hx => h x (List.mem_cons_of_mem c hx))]
      rfl

theorem broadcastSend_append (sendOk : Conn → Bool) (now : ℚ) (l₁ l₂ : List Conn)
    (s : ManagerState) :
    broadcastSend sendOk now s (l₁ ++ l₂) =
      ((broadcastSend sendOk now (broadcastSend sendOk now s l₁).1 l₂).1,
        (broadcastSend sendOk now s l₁).2.1 ++
          (broadcastSend sendOk now (broadcastSend sendOk now s l₁).1 l₂).2.1,
        (broadcastSend sendOk now s l₁).2.2 ++
          (broadcastSend sendOk now (broadcastSend sendOk now s l₁).1 l₂).2.2) := by
  induction l₁ generalizing s with
  | nil => rfl
  | cons c rest ih =>
      rw [List.cons_append]
      cases hc : sendOk c with
      | true =>
          rw [broadcastSend_cons_ok sendOk now s (rest ++ l₂) hc,
            ih (updateHeartbeat s c now),
            broadcastSend_cons_ok sendOk now s rest hc]
          rfl
      | false =>
          rw [broadcastSend_cons_fail sendOk now s (rest ++ l₂) hc,
            ih (cleanupConnection s c),
            broadcastSend_cons_fail sendOk now s rest hc]
          rfl

theorem refreshAll_frame (now : ℚ) (l : List Conn) (s : ManagerState) :
    (refreshAll now s l).clients = s.clients ∧
    (refreshAll now s l).watchdogs = s.watchdogs ∧
    (refreshAll now s l).disconnects = s.disconnects ∧
    (refreshAll now s l).messagesSent = s.messagesSent ∧
    (refreshAll now s l).latestPayload = s.latestPayload ∧
    (refreshAll now s l).lastBroadcastAt = s.lastBroadcastAt := by
  induction l generalizing s with
  | nil => exact ⟨rfl, rfl, rfl, rfl, rfl, rfl⟩
  | cons c rest ih =>
      have h1 := updateHeartbeat_frame s c now
      have h2 := ih (updateHeartbeat s c now)
      exact ⟨h2.1.trans h1.1, h2.2.1.trans h1.2.1, h2.2.2.1.trans h1.2.2.1,
        h2.2.2.2.1.trans h1.2.2.2.1, h2.2.2.2.2.1.trans h1.2.2.2.2.1,
        h2.2.2.2.2.2.trans h1.2.2.2.2.2.1⟩

theorem refreshAll_lookup_not_mem (now : ℚ) {l : List Conn} {c : Conn}
    (s : ManagerState) (h : c ∉ l) :
    alookup (refreshAll now s l).lastHeartbeat c = alookup s.lastHeartbeat c := by
  induction l generalizing s with
  | nil => rfl
  | cons x rest ih =>
      have hcx : c ≠ x := fun he => h (he ▸ List.mem_cons_self x rest)
      have hcr : c ∉ rest := fun hr => h (List.mem_cons_of_mem x hr)
      show alookup (refreshAll now (updateHeartbeat s x now) rest).lastHeartbeat c = _
      rw [ih (updateHeartbeat s x now) hcr]
      exact updateHeartbeat_lookup_ne now hcx

theorem refreshAll_lookup_mem (now : ℚ) {l : List Conn} {c : Conn}
    (s : ManagerState) (hc : c ∈ l) (hcl : c ∈ s.clients) :
    alookup (refreshAll now s l).lastHeartbeat c = some now := by
  induction l generalizing s with
  | nil => exact absurd hc (List.not_mem_nil c)
  | cons x rest ih =>
      show alookup (refreshAll now (updateHeartbeat s x now) rest).lastHeartbeat c = _
      by_cases hcr : c ∈ rest
      · exact ih (updateHeartbeat s x now) hcr
          (by rw [updateHeartbeat_clients]; exact hcl)
      · have hcx : c = x := by
          rcases List.mem_cons.mp hc with h | h
          · exact h
          · exact absurd h hcr
        subst hcx
        rw [refreshAll_lookup_not_mem now (updateHeartbeat s c now) hcr]
        exact updateHeartbeat_lookup_self now hcl

/-! ## Coherence preservation lemmas -/

theorem alookup_aset_isSome {α : Type} (l : List (Conn × α)) (c c' : Conn)
    (v : α) :
    ((alookup (aset l c v) c').isSome = true) ↔
      (c' = c ∨ (alookup l c').isSome = true) := by
  by_cases h : c' = c
  · subst h
    simp [alookup_aset_self]
  · rw [alookup_aset_ne l v h]
    simp [h]

theorem alookup_aremove_isSome {α : Type} (l : List (Conn × α)) (c c' : Conn) :
    ((alookup (aremove l c) c').isSome = true) ↔
      (c' ≠ c ∧ (alookup l c').isSome = true) := by
  by_cases h : c' = c
  · subst h
    simp [alookup_aremove_self]
  · rw [alookup_aremove_ne l h]
    simp [h]

theorem mem_addClients {s : List Conn} {ws c : Conn} :
    (c ∈ (if ws ∈ s then s else ws :: s)) ↔ (c = ws ∨ c ∈ s) := by
  by_cases hm : ws ∈ s
  · rw [if_pos hm]
    constructor
    · exact Or.inr
    · rintro (rfl | h)
      · exact hm
      · exact h
  · rw [if_neg hm]
    exact List.mem_cons

theorem coherent_addConnection {s : ManagerState} (h : coherent s)
    (ws : Conn) (now : ℚ) (wid : Nat) :
    coherent (addConnection s ws now wid) := by
  intro c
  obtain ⟨h1, h2⟩ := h c
  constructor
  · show (c ∈ if ws ∈ s.clients then s.clients else ws :: s.clients) ↔
      (alookup (aset s.lastHeartbeat ws now) c).isSome = true
    rw [mem_addClients, alookup_aset_isSome]
    exact or_congr Iff.rfl h1
  · show (c ∈ if ws ∈ s.clients then s.clients else ws :: s.clients) ↔
      (alookup (aset s.watchdogs ws wid) c).isSome = true
    rw [mem_addClients, alookup_aset_isSome]
    exact or_congr Iff.rfl h2

theorem coherent_cleanupConnection {s : ManagerState} (h : coherent s)
    (ws : Conn) : coherent (cleanupConnection s ws) := by
  intro c
  obtain ⟨h1, h2⟩ := h c
  have hmem : (c ∈ s.clients.filter (fun x => x ≠ ws)) ↔ (c ≠ ws ∧ c ∈ s.clients) := by
    rw [List.mem_filter]
    simp [and_comm]
  constructor
  · show (c ∈ s.clients.filter (fun x => x ≠ ws)) ↔
      (alookup (aremove s.lastHeartbeat ws) c).isSome = true
    rw [hmem, alookup_aremove_isSome]
    exact and_congr Iff.rfl h1
  · show (c ∈ s.clients.filter (fun x => x ≠ ws)) ↔
      (alookup (aremove s.watchdogs ws) c).isSome = true
    rw [hmem, alookup_aremove_isSome]
    exact and_congr Iff.rfl h2

theorem coherent_updateHeartbeat {s : ManagerState} (h : coherent s)
    (ws : Conn) (now : ℚ) : coherent (updateHeartbeat s ws now) := by
  unfold updateHeartbeat
  split
  · next hws =>
      intro c
      obtain ⟨h1, h2⟩ := h c
      refine ⟨?_, h2⟩
      show (c ∈ s.clients) ↔ (alookup (aset s.lastHeartbeat ws now) c).isSome = true
      rw [alookup_aset_isSome]
      constructor
      · intro hc
        exact Or.inr (h1.mp hc)
      · rintro (rfl | hc)
        · exact hws
        · exact h1.mpr hc
  · exact h

theorem coherent_closeAllLoop (s : ManagerState) (h : coherent s)
    (reason : String) (l : List Conn) :
    coherent (closeAllLoop reason s l).1 := by
  induction l generalizing s with
  | nil => exact h
  | cons c rest ih => exact ih (cleanupConnection s c) (coherent_cleanupConnection h c)

theorem coherent_broadcastSend (s : ManagerState) (h : coherent s)
    (sendOk : Conn → Bool) (now : ℚ) (l : List Conn) :
    coherent (broadcastSend sendOk now s l).1 := by
  induction l generalizing s with
  | nil => exact h
  | cons c rest ih =>
      cases hc : sendOk c with
      | true =>
          rw [broadcastSend_cons_ok sendOk now s rest hc]
          exact ih (updateHeartbeat s c now) (coherent_updateHeartbeat h c now)
      | false =>
          rw [broadcastSend_cons_fail sendOk now s rest hc]
          exact ih (cleanupConnection s c) (coherent_cleanupConnection h c)

theorem coherent_registerEntry {s : ManagerState} (h : coherent s)
    (ws : Conn) (now now2 : ℚ) (wid : Nat) (ok : Bool) :
    coherent (registerEntry s ws now now2 wid ok) := by
  have h1 := coherent_addConnection h ws now wid
  simp only [registerEntry]
  cases hlp : (addConnection s ws now wid).latestPayload with
  | none => exact h1
  | some p =>
      cases ok with
      | true =>
          rw [if_pos rfl]
          exact coherent_updateHeartbeat h1 ws now2
      | false =>
          rw [if_neg (by simp)]
          exact h1

/-- The snapshot-filter characterisation of the client set after the send
loop: exactly the snapshotted failing connections are removed. -/
theorem broadcastSend_clients (sendOk : Conn → Bool) (now : ℚ) (l : List Conn)
    (s : ManagerState) :
    (broadcastSend sendOk now s l).1.clients =
      s.clients.filter (fun x => !(l.contains x && !sendOk x)) := by
  induction l generalizing s with
  | nil => simp [broadcastSend]
  | cons c rest ih =>
      cases hc : sendOk c with
      | true =>
          rw [broadcastSend_cons_ok sendOk now s rest hc]
          show (broadcastSend sendOk now (updateHeartbeat s c now) rest).1.clients = _
          rw [ih, updateHeartbeat_clients]
          refine List.filter_congr ?_
          intro x _
          by_cases hx : x = c
          · subst hx
            simp [List.contains_cons, hc]
          · simp [List.contains_cons, hx]
      | false =>
          rw [broadcastSend_cons_fail sendOk now s rest hc]
          show (broadcastSend sendOk now (cleanupConnection s c) rest).1.clients = _
          rw [ih]
          show ((s.clients.filter (fun y => y ≠ c)).filter _) = _
          rw [List.filter_filter]
          refine List.filter_congr ?_
          intro x _
          by_cases hx : x = c
          · subst hx
            simp [List.contains_cons, hc]
          · simp [List.contains_cons, hx]

/-! ## Telemetry sorting and bucketing lemmas -/

theorem mem_insertTsDesc {r a : TelemetryRow} :
    ∀ {l : List TelemetryRow}, a ∈ insertTsDesc r l ↔ (a = r ∨ a ∈ l)
  | [] => by simp [insertTsDesc]
  | x :: xs => by
      simp only [insertTsDesc]
      split
      · rw [List.mem_cons]
      · rw [List.mem_cons, mem_insertTsDesc, List.mem_cons]
        tauto

theorem sorted_insertTsDesc (r : TelemetryRow) :
    ∀ (l : List TelemetryRow), l.Pairwise (fun a b => b.ts ≤ a.ts) →
      (insertTsDesc r l).Pairwise (fun a b => b.ts ≤ a.ts)
  | [], _ => by simp [insertTsDesc]
  | x :: xs, h => by
      obtain ⟨hx, hxs⟩ := List.pairwise_cons.mp h
      simp only [insertTsDesc]
      split
      · next hle =>
          refine List.pairwise_cons.mpr ⟨?_, h⟩
          intro b hb
          rcases List.mem_cons.mp hb with rfl | hbx
          · exact hle
          · exact le_trans (hx b hbx) hle
      · next hgt =>
          push_neg at hgt
          refine List.pairwise_cons.mpr ⟨?_, sorted_insertTsDesc r xs hxs⟩
          intro b hb
          rcases mem_insertTsDesc.mp hb with rfl | hbxs
          · exact le_of_lt hgt
          · exact hx b hbxs

theorem sorted_orderByTsDesc :
    ∀ (l : List TelemetryRow),
      (orderByTsDesc l).Pairwise (fun a b => b.ts ≤ a.ts)
  | [] => List.Pairwise.nil
  | r :: rs => sorted_insertTsDesc r (orderByTsDesc rs) (sorted_orderByTsDesc rs)

theorem sorted_recent_telemetry (table : List TelemetryRow) (limit : Nat) :
    (recent_telemetry table limit).Pairwise (fun a b => b.ts ≤ a.ts) :=
  List.Pairwise.sublist (List.take_sublist limit (orderByTsDesc table))
    (sorted_orderByTsDesc table)

theorem addRowToPoint_timestamp (pt : TelemetryPoint) (row : TelemetryRow) :
    (addRowToPoint pt row).timestamp = pt.timestamp := rfl

theorem bucketStep_timestamps (acc : List TelemetryPoint) (row : TelemetryRow) :
    (bucketStep acc row).map (fun pt => pt.timestamp) =
      if acc.any (fun pt => pt.timestamp = row.ts) then
        acc.map (fun pt => pt.timestamp)
      else acc.map (fun pt => pt.timestamp) ++ [row.ts] := by
  unfold bucketStep
  split
  · next h =>
      rw [List.map_map]
      refine List.map_congr_left ?_
      intro pt _
      show (if pt.timestamp = row.ts then addRowToPoint pt row else pt).timestamp = _
      split <;> rfl
  · next h =>
      rw [List.map_append]
      rfl


theorem bucketStep_length (acc : List TelemetryPoint) (row : TelemetryRow) :
    (bucketStep acc row).length ≤ acc.length + 1 := by
  unfold bucketStep
  split
  · rw [List.length_map]
    omega
  · rw [List.length_append,
      show [addRowToPoint (freshPoint row) row].length = 1 from rfl]

theorem foldl_bucketStep_length (rows : List TelemetryRow) :
    ∀ acc : List TelemetryPoint,
      (rows.foldl bucketStep acc).length ≤ acc.length + rows.length := by
  induction rows with
  | nil => intro acc; simp
  | cons row rest ih =>
      intro acc
      show ((rest.foldl bucketStep (bucketStep acc row)).length ≤ _)
      have h1 := ih (bucketStep acc row)
      have h2 := bucketStep_length acc row
      simp only [List.length_cons]
      omega

theorem foldl_bucketStep_sorted (rows : List TelemetryRow)
    (hrows : rows.Pairwise (fun a b => a.ts ≤ b.ts)) :
    ∀ acc : List TelemetryPoint,
      ((acc.map (fun pt => pt.timestamp)).Pairwise (· < ·)) →
      (∀ pt ∈ acc, ∀ row ∈ rows, pt.timestamp ≤ row.ts) →
      ((rows.foldl bucketStep acc).map (fun pt => pt.timestamp)).Pairwise (· < ·) := by
  induction rows with
  | nil => intro acc hacc _; exact hacc
  | cons row rest ih =>
      intro acc hacc hcross
      obtain ⟨hhead, hrest⟩ := List.pairwise_cons.mp hrows
      show ((rest.foldl bucketStep (bucketStep acc row)).map
        (fun pt => pt.timestamp)).Pairwise (· < ·)
      refine ih hrest (bucketStep acc row) ?_ ?_
      · rw [bucketStep_timestamps]
        split
        · exact hacc
        · next hany =>
            rw [List.pairwise_append]
            refine ⟨hacc, List.pairwise_singleton _ _, ?_⟩
            intro t ht t' ht'
            rw [List.mem_singleton] at ht'
            subst ht'
            obtain ⟨pt, hpt, hptt⟩ := List.mem_map.mp ht
            have hle : pt.timestamp ≤ row.ts :=
              hcross pt hpt row (List.mem_cons_self row rest)
            have hne : pt.timestamp ≠ row.ts := by
              intro he
              apply hany
              rw [List.any_eq_true]
              exact ⟨pt, hpt, by exact decide_eq_true he⟩
            omega
      · intro pt hpt row' hrow'
        have hts : pt.timestamp ∈ (bucketStep acc row).map (fun q => q.timestamp) :=
          List.mem_map_of_mem _ hpt
        rw [bucketStep_timestamps] at hts
        have hbound : pt.timestamp ≤ row.ts := by
          rcases (by
            split at hts
            · exact Or.inl hts
            · rcases List.mem_append.mp hts with h | h
              · exact Or.inl h
              · exact Or.inr (List.mem_singleton.mp h) :
              pt.timestamp ∈ acc.map (fun q => q.timestamp) ∨ pt.timestamp = row.ts)
            with h | h
          · obtain ⟨q, hq, hqt⟩ := List.mem_map.mp h
            rw [← hqt]
            exact hcross q hq row (List.mem_cons_self row rest)
          · omega
        exact le_trans hbound (hhead row' hrow')

theorem foldl_bucketStep_regions (rows : List TelemetryRow) :
    ∀ acc : List TelemetryPoint,
      (∀ pt ∈ acc, ∀ rp ∈ pt.regions,
        rp.profit_cents = rp.revenue_cents - rp.cost_cents) →
      ∀ pt ∈ rows.foldl bucketStep acc, ∀ rp ∈ pt.regions,
        rp.profit_cents = rp.revenue_cents - rp.cost_cents := by
  induction rows with
  | nil => intro acc hacc; exact hacc
  | cons row rest ih =>
      intro acc hacc
      refine ih (bucketStep acc row) ?_
      intro pt hpt rp hrp
      unfold bucketStep at hpt
      split at hpt
      · obtain ⟨q, hq, hqe⟩ := List.mem_map.mp hpt
        by_cases hts : q.timestamp = row.ts
        · rw [if_pos hts] at hqe
          subst hqe
          rcases List.mem_append.mp hrp with h | h
          · exact hacc q hq rp h
          · rw [List.mem_singleton.mp h]
            rfl
        · rw [if_neg hts] at hqe
          subst hqe
          exact hacc q hq rp hrp
      · rcases List.mem_append.mp hpt with h | h
        · exact hacc pt h rp hrp
        · rw [List.mem_singleton.mp h] at hrp
          rcases List.mem_append.mp hrp with h2 | h2
          · exact absurd h2 (List.not_mem_nil rp)
          · rw [List.mem_singleton.mp h2]
            rfl

/-! ## Supporting lemmas for the expansion arithmetic -/

theorem pyInt_of_nonneg {q : ℚ} (h : 0 ≤ q) : pyInt q = ⌊q⌋ := by
  simp [pyInt, not_lt.mpr h]

theorem pyInt_nonneg {q : ℚ} (h : 0 ≤ q) : 0 ≤ pyInt q := by
  rw [pyInt_of_nonneg h]
  exact Int.floor_nonneg.mpr h

theorem expansionStep_available_nonneg (capital profit : Int) (ratio : ℚ) (cost : Int) :
    0 ≤ (expansionStep capital profit ratio cost).available_capital :=
  le_max_right _ _

/-! ## Supporting lemmas for loop termination -/

theorem loopIterations_none (fuel : Nat) (i : Int) :
    loopIterations none fuel i = fuel := by
  induction fuel generalizing i with
  | zero => rfl
  | succ n ih => simp [loopIterations, shouldBreak, ih]; omega

theorem loopIterations_some (m : Int) (hm : 1 ≤ m) :
    ∀ (fuel : Nat) (i : Int), i < m → (m - i).toNat ≤ fuel →
      loopIterations (some m) fuel i = (m - i).toNat := by
  intro fuel
  induction fuel with
  | zero => intro i hi hf; omega
  | succ n ih =>
      intro i hi hf
      have hmne : m ≠ 0 := by omega
      by_cases hbr : m ≤ i + 1
      · have : m = i + 1 := by omega
        simp only [loopIterations, shouldBreak]
        rw [if_pos (by simp [hmne, hbr])]
        omega
      · simp only [loopIterations, shouldBreak]
        rw [if_neg (by simp [hmne]; omega)]
        rw [ih (i + 1) (by omega) (by omega)]
        omega

/-! ## Claim theorems: expansion arithmetic (C2), bounded-run termination (C8) -/

/-- C2. Expansion arithmetic: per step, with
`available_capital = max(prior_capital + max(total_profit, 0), 0)`,
`spend_budget = floor(available_capital * spend_ratio)`,
`planned_gpus = floor(spend_budget / gpu_cost)`,
`affordable_gpus = floor(available_capital / gpu_cost)`, the purchase
`new_gpus = min(planned_gpus, affordable_gpus)` is never negative and never
exceeds `floor(available_capital / gpu_cost)`,
`capex_spent = new_gpus * gpu_cost`; and for
`available_capital = 1,000,000` cents, `spend_ratio = 0.25`,
`gpu_cost = 40,000` the result is `spend_budget = 250,000`, `new_gpus = 6`,
`capex_spent = 240,000`. -/
theorem expansion_arithmetic (capital profit : Int) (ratio : ℚ) (cost : Int)
    (hr0 : 0 ≤ ratio) (hc : 0 < cost) :
    (0 ≤ (expansionStep capital profit ratio cost).new_gpus ∧
      (expansionStep capital profit ratio cost).new_gpus ≤
        Int.fdiv (expansionStep capital profit ratio cost).available_capital cost ∧
      (expansionStep capital profit ratio cost).spend_budget =
        ⌊((expansionStep capital profit ratio cost).available_capital : ℚ) * ratio⌋ ∧
      (expansionStep capital profit ratio cost).spent_capex =
        (expansionStep capital profit ratio cost).new_gpus * cost) ∧
    (expansionStep 1000000 0 (1 / 4) 40000 =
      { available_capital := 1000000, spend_budget := 250000,
        affordable_gpus := 25, planned_gpus := 6, new_gpus := 6,
        spent_capex := 240000 }) := by
  have havail : (0 : Int) ≤ max (capital + max profit 0) 0 := le_max_right _ _
  have hprod : (0 : ℚ) ≤ (max (capital + max profit 0) 0 : Int) * ratio :=
    mul_nonneg (by exact_mod_cast havail) hr0
  constructor
  · refine ⟨?_, ?_, ?_, ?_⟩
    · show 0 ≤ (expansionStep capital profit ratio cost).new_gpus
      simp only [expansionStep, if_pos hc]
      exact le_min
        (Int.fdiv_nonneg (pyInt_nonneg hprod) (le_of_lt hc))
        (Int.fdiv_nonneg havail (le_of_lt hc))
    · show (expansionStep capital profit ratio cost).new_gpus ≤
        Int.fdiv (expansionStep capital profit ratio cost).available_capital cost
      simp only [expansionStep, if_pos hc]
      exact min_le_right _ _
    · show (expansionStep capital profit ratio cost).spend_budget =
        ⌊((expansionStep capital profit ratio cost).available_capital : ℚ) * ratio⌋
      simp only [expansionStep]
      exact pyInt_of_nonneg hprod
    · rfl
  · have hb : pyInt (250000 : ℚ) = 250000 := by
      rw [pyInt_of_nonneg (by norm_num)]
      norm_num
    simp only [expansionStep]
    norm_num [ExpansionResult.mk.injEq, hb]
    decide

/-- Witness for `expansion_arithmetic` at `capital = 1,000,000`, `profit = 0`,
`spend_ratio = 1/4`, `gpu_cost = 40,000`. -/
theorem expansion_arithmetic_witness :
    (0 : ℚ) ≤ 1 / 4 ∧ (0 : Int) < 40000 ∧
    0 ≤ (expansionStep 1000000 0 (1 / 4) 40000).new_gpus ∧
    expansionStep 1000000 0 (1 / 4) 40000 =
      { available_capital := 1000000, spend_budget := 250000,
        affordable_gpus := 25, planned_gpus := 6, new_gpus := 6,
        spent_capex := 240000 } := by
  have h := expansion_arithmetic 1000000 0 (1 / 4) 40000 (by norm_num) (by norm_num)
  exact ⟨by norm_num, by norm_num, h.1.1, h.2⟩

/-- C8. Bounded-run termination: for every config with `continuous = false`
(where `duration_hours` is required and positive), the run loop computes
`step_hours = step_minutes/60`, sleeps
`max(ε, step_hours*3600/speed_multiplier)` per iteration (`ε = 0.01`), and
executes exactly `max_steps = ceil(duration_hours/step_hours)` iterations
before terminating on its own; with `continuous = true` it imposes no step
bound (the loop runs for as many iterations as the fuel allows). -/
theorem bounded_run_termination (r : SimulationRequest) (d : ℚ) (fuel : Nat)
    (hv : r.Valid) (hc : r.continuous = false) (hd : r.duration_hours = some d)
    (hfuel : (⌈d / stepHours r⌉).toNat ≤ fuel) :
    stepHours r = r.step_minutes / 60 ∧
    sleepSeconds r = max (1 / 100) (stepHours r * 3600 / r.speed_multiplier) ∧
    maxSteps r = some ⌈d / stepHours r⌉ ∧
    loopIterations (maxSteps r) fuel 0 = (⌈d / stepHours r⌉).toNat ∧
    (∀ r2 : SimulationRequest, r2.continuous = true → maxSteps r2 = none) ∧
    (∀ (fuel2 : Nat) (i : Int), loopIterations none fuel2 i = fuel2) := by
  obtain ⟨hsm, _, _, _, _, _, _, hdur⟩ := hv
  have hdpos : 0 < d := hdur d hd
  have hh : 0 < stepHours r := div_pos hsm (by norm_num)
  have hm : 1 ≤ ⌈d / stepHours r⌉ := Int.ceil_pos.mpr (div_pos hdpos hh)
  have hms : maxSteps r = some ⌈d / stepHours r⌉ := by
    rw [maxSteps, hd]
    simp only [hc, Bool.not_false, Bool.true_and]
    rw [if_pos (by simp [ne_of_gt hdpos]), max_eq_right hm]
  refine ⟨rfl, rfl, hms, ?_, ?_, fun fuel2 i => loopIterations_none fuel2 i⟩
  · rw [hms]
    have := loopIterations_some ⌈d / stepHours r⌉ hm fuel 0 (by omega)
      (by rw [sub_zero]; exact hfuel)
    rwa [sub_zero] at this
  · intro r2 h2
    rw [maxSteps]
    cases r2.duration_hours with
    | none => rfl
    | some d2 => simp [h2]

/-- C4 counterexample: calling `stop()` with no run task active is not a
pure no-op.  In the concrete idle state with one registered connection
(`idleWithClient`), `stop()` closes that connection with reason
`"simulation stopped"`, removes it, and increments the disconnects counter
from 0 to 1 — contradicting "the disconnects counter keeps its prior value
and no registered connection is closed or removed". -/
theorem stop_idle_counterexample :
    isRunning idleWithClient = false ∧
    idleWithClient.disconnects = 0 ∧ idleWithClient.clients = [7] ∧
    (stop idleWithClient).1.disconnects = 1 ∧
    (stop idleWithClient).1.clients = [] ∧
    (stop idleWithClient).2 = [Event.closeConn 7 1000 "simulation stopped"] := by
  refine ⟨rfl, rfl, rfl, ?_, ?_, ?_⟩ <;> rfl

/-- C4 (amended): `stop()` when no run task is active leaves the iteration
and `messages_sent` counters (and the latest payload and last-broadcast
time) unchanged, but it still clears the stored config and executes the
close-all sequence: every registered connection is closed with reason
`"simulation stopped"` and removed, incrementing `disconnects` once per
registered connection; only when no connection is registered is the state
unchanged apart from the cleared task handle and config. -/
theorem stop_idle_effects (s : ManagerState) (hidle : isRunning s = false)
    (hnd : s.clients.Nodup) :
    (stop s).1.currentIteration = s.currentIteration ∧
    (stop s).1.messagesSent = s.messagesSent ∧
    (stop s).1.latestPayload = s.latestPayload ∧
    (stop s).1.lastBroadcastAt = s.lastBroadcastAt ∧
    (stop s).1.task = none ∧
    (stop s).1.currentRequest = none ∧
    (stop s).1.clients = [] ∧
    (stop s).1.disconnects = s.disconnects + s.clients.length ∧
    (stop s).2 = s.clients.map (fun c => Event.closeConn c 1000 "simulation stopped") ∧
    (s.clients = [] → (stop s).1 = { s with task := none, currentRequest := none }) := by
  have hframe := closeAllLoop_frame "simulation stopped" s.clients
    { s with task := none, currentRequest := none }
  refine ⟨hframe.2.2.2.1, hframe.2.2.2.2.1, hframe.2.2.2.2.2.1,
    hframe.2.2.2.2.2.2.1, hframe.1, hframe.2.2.1, ?_, ?_, ?_, ?_⟩
  · show (closeAllLoop "simulation stopped"
      { s with task := none, currentRequest := none } s.clients).1.clients = []
    rw [closeAllLoop_clients]
    refine List.filter_eq_nil_iff.mpr ?_
    intro a ha
    have hc : s.clients.contains a = true := List.elem_eq_true_of_mem ha
    simp [List.contains] at hc ⊢
    exact hc
  · show (closeAllLoop "simulation stopped"
      { s with task := none, currentRequest := none } s.clients).1.disconnects = _
    exact closeAllLoop_disconnects _ _ _ hnd (fun c hc => hc)
  · exact closeAllLoop_events _ _ _
  · intro h
    show (closeAllLoop "simulation stopped"
      { s with task := none, currentRequest := none } s.clients).1 = _
    rw [h]
    rfl

/-- Witness for `stop_idle_effects` at the concrete idle state
`idleWithClient`. -/
theorem stop_idle_effects_witness :
    isRunning idleWithClient = false ∧ idleWithClient.clients.Nodup ∧
    (stop idleWithClient).1.disconnects =
      idleWithClient.disconnects + idleWithClient.clients.length ∧
    (stop idleWithClient).1.clients = [] := by
  have h := stop_idle_effects idleWithClient rfl (by decide)
  exact ⟨rfl, by decide, h.2.2.2.2.2.2.2.1, h.2.2.2.2.2.2.1⟩

/-- C5 counterexample: `start()` does not reset `_last_broadcast_at`.  In
the concrete state `afterFirstRun` (whose prior run last broadcast at time
99), the state after `start()` still carries `last_broadcast_at = 99` from
the prior run — contradicting "last_broadcast_at carries no value from a
prior run". -/
theorem start_reset_counterexample :
    afterFirstRun.lastBroadcastAt = some 99 ∧
    (start afterFirstRun exampleRequest 2).1.lastBroadcastAt = some 99 ∧
    (start afterFirstRun exampleRequest 2).1.lastBroadcastAt ≠ none := by
  refine ⟨rfl, rfl, ?_⟩
  intro h
  rw [show (start afterFirstRun exampleRequest 2).1.lastBroadcastAt = some 99
    from rfl] at h
  exact Option.noConfusion h

/-- C5 (amended): `start(config)` resets `iteration`, `messages_sent` and
`disconnects` to 0 and clears the latest payload and finance snapshot
before the new run's task is created, but `last_broadcast_at` is *not*
reset: it retains the prior run's value until the new run's first
broadcast. -/
theorem start_resets_counters (s : ManagerState) (req : SimulationRequest)
    (tid : Nat) :
    (start s req tid).1.currentIteration = 0 ∧
    (start s req tid).1.messagesSent = 0 ∧
    (start s req tid).1.disconnects = 0 ∧
    (start s req tid).1.latestPayload = none ∧
    (start s req tid).1.financeSnapshot = none ∧
    (start s req tid).1.currentRequest = some req ∧
    (start s req tid).1.task = some tid ∧
    (start s req tid).1.lastBroadcastAt = s.lastBroadcastAt := by
  refine ⟨rfl, rfl, rfl, rfl, rfl, rfl, rfl, ?_⟩
  show (stopLocked s).1.lastBroadcastAt = s.lastBroadcastAt
  exact (closeAllLoop_frame "simulation stopped" s.clients
    { s with task := none, currentRequest := none }).2.2.2.2.2.2.1

/-- Witness for `bounded_run_termination` at `exampleRequest`: the bounded
loop runs exactly 4 iterations. -/
theorem bounded_run_termination_witness :
    exampleRequest.Valid ∧ exampleRequest.continuous = false ∧
    maxSteps exampleRequest = some 4 ∧
    loopIterations (maxSteps exampleRequest) 4 0 = 4 := by
  have hv : exampleRequest.Valid := by
    refine ⟨by norm_num [exampleRequest], by norm_num [exampleRequest],
      by norm_num [exampleRequest], by norm_num [exampleRequest],
      by norm_num [exampleRequest], by norm_num [exampleRequest],
      by norm_num [exampleRequest], ?_⟩
    intro d hd
    have h2 : (2 : ℚ) = d := Option.some.inj hd
    rw [← h2]
    norm_num
  have hce : (⌈(2 : ℚ) / stepHours exampleRequest⌉) = 4 := by
    norm_num [stepHours, exampleRequest]
  have h := bounded_run_termination exampleRequest 2 4 hv rfl rfl
    (by rw [hce]; norm_num)
  refine ⟨hv, rfl, ?_, ?_⟩
  · rw [h.2.2.1, hce]
  · rw [h.2.2.2.1, hce]
    rfl

/-- C3. Persist-before-broadcast ordering: in every loop iteration of the
run trace, the step's database commit (`db.commit()`, one transaction over
world state, region financials, region stats and telemetry rows) occurs at
a strictly earlier trace position than that step's broadcast hand-off, so
no subscriber ever receives a payload whose step has not been durably
persisted. -/
theorem persist_before_broadcast (tid n j k : Nat)
    (h : (runTrace tid n)[j]? = some (Event.broadcastStep tid k)) :
    ∃ i < j, (runTrace tid n)[i]? = some (Event.commitStep tid k) := by
  obtain ⟨hj, hk⟩ := runTrace_broadcast_position tid h
  refine ⟨3 * k + 1, by omega, ?_⟩
  exact runTrace_commit_at tid hk

/-- Witness for `persist_before_broadcast`: in the single-step trace of run
task 1, the broadcast of step 0 sits at position 2 and a commit for step 0
precedes it. -/
theorem persist_before_broadcast_witness :
    (runTrace 1 1)[2]? = some (Event.broadcastStep 1 0) ∧
    ∃ i < 2, (runTrace 1 1)[i]? = some (Event.commitStep 1 0) :=
  ⟨rfl, persist_before_broadcast 1 1 2 0 rfl⟩

/-- C1. Single-run exclusivity: `start(config)` first runs the prior run's
stop sequence to completion — the prior task is cancelled and awaited, and
every connection registered at that moment is closed with reason
`"simulation stopped"` — before the new run's task is created, so the
manager's single task slot holds exactly the new task, and in the combined
trace every prior connection's close occurs strictly before the task
creation, which occurs strictly before every broadcast of the new run. -/
theorem start_single_run_exclusivity (s : ManagerState)
    (req : SimulationRequest) (tid : Nat) (steps : Nat) :
    (startThenRun s req tid steps).1.task = some tid ∧
    ∃ jt : Nat, ((startThenRun s req tid steps).2)[jt]? =
        some (Event.taskCreated tid) ∧
      (∀ c ∈ s.clients, ∃ i < jt, ((startThenRun s req tid steps).2)[i]? =
          some (Event.closeConn c 1000 "simulation stopped")) ∧
      (∀ j k : Nat, ((startThenRun s req tid steps).2)[j]? =
          some (Event.broadcastStep tid k) → jt < j) := by
  have htr : (startThenRun s req tid steps).2 =
      (s.clients.map (fun c => Event.closeConn c 1000 "simulation stopped") ++
        [Event.taskCreated tid]) ++ runTrace tid steps := by
    show ((stopLocked s).2 ++ [Event.taskCreated tid]) ++ runTrace tid steps = _
    have he : (stopLocked s).2 =
        s.clients.map (fun c => Event.closeConn c 1000 "simulation stopped") :=
      closeAllLoop_events "simulation stopped" s.clients
        { s with task := none, currentRequest := none }
    rw [he]
  set L := s.clients.length with hL
  refine ⟨rfl, L, ?_, ?_, ?_⟩
  · rw [htr]
    rw [List.getElem?_append_left (by simp [hL])]
    rw [List.getElem?_append_right (by simp [hL])]
    simp [hL]
  · intro c hc
    obtain ⟨i, hi, hgi⟩ := List.getElem_of_mem hc
    refine ⟨i, by omega, ?_⟩
    rw [htr]
    rw [List.getElem?_append_left (by simp; omega)]
    rw [List.getElem?_append_left (by simp [hL]; omega)]
    rw [List.getElem?_map]
    rw [List.getElem?_eq_getElem hi, hgi]
    rfl
  · intro j k hj
    by_contra hnot
    have hjL : j ≤ L := by omega
    rw [htr] at hj
    by_cases hjlt : j < L
    · rw [List.getElem?_append_left (by simp [hL]; omega)] at hj
      rw [List.getElem?_append_left (by simp [hL]; omega)] at hj
      rw [List.getElem?_map] at hj
      rw [List.getElem?_eq_getElem (by rw [← hL]; omega)] at hj
      simp at hj
    · have hjeq : j = L := by omega
      subst hjeq
      rw [List.getElem?_append_left (by simp [hL])] at hj
      rw [List.getElem?_append_right (by simp [hL])] at hj
      simp [hL] at hj

/-- Witness for `start_single_run_exclusivity` at the concrete mid-run
state `afterFirstRun` (one registered connection), starting run task 2 for
one step. -/
theorem start_single_run_exclusivity_witness :
    (startThenRun afterFirstRun exampleRequest 2 1).1.task = some 2 ∧
    ∃ jt : Nat, ((startThenRun afterFirstRun exampleRequest 2 1).2)[jt]? =
        some (Event.taskCreated 2) ∧
      (∀ c ∈ afterFirstRun.clients, ∃ i < jt,
        ((startThenRun afterFirstRun exampleRequest 2 1).2)[i]? =
          some (Event.closeConn c 1000 "simulation stopped")) ∧
      (∀ j k : Nat, ((startThenRun afterFirstRun exampleRequest 2 1).2)[j]? =
          some (Event.broadcastStep 2 k) → jt < j) :=
  start_single_run_exclusivity afterFirstRun exampleRequest 2 1

/-- C7. Broadcast failure isolation: for every `broadcast(payload)` over a
snapshot of the registered connections in which exactly one connection's
send fails, that connection is closed (code 1011, reason "send failure")
and removed from the registry, the disconnects counter increases by exactly
1, and each of the remaining connections still receives the payload with
its heartbeat refreshed; one failing connection never prevents delivery to
the others. -/
theorem broadcast_failure_isolation (s : ManagerState) (p : Payload) (now : ℚ)
    (sendOk : Conn → Bool) (c0 : Conn)
    (hnd : s.clients.Nodup) (hc0 : c0 ∈ s.clients) (hfail : sendOk c0 = false)
    (hothers : ∀ c ∈ s.clients, c ≠ c0 → sendOk c = true) :
    (broadcast sendOk s p now).2.1 = s.clients.filter (fun c => c ≠ c0) ∧
    c0 ∉ (broadcast sendOk s p now).1.clients ∧
    (broadcast sendOk s p now).1.disconnects = s.disconnects + 1 ∧
    (broadcast sendOk s p now).2.2 = [Event.closeConn c0 1011 "send failure"] ∧
    (∀ c ∈ s.clients, c ≠ c0 →
      c ∈ (broadcast sendOk s p now).1.clients ∧
      alookup (broadcast sendOk s p now).1.lastHeartbeat c = some now) ∧
    (broadcast sendOk s p now).1.latestPayload = some p ∧
    (broadcast sendOk s p now).1.messagesSent = s.messagesSent + 1 := by
  obtain ⟨l₁, l₂, hsplit⟩ := List.append_of_mem hc0
  have hnds : (l₁ ++ c0 :: l₂).Nodup := hsplit ▸ hnd
  obtain ⟨hnd1, hnd2, hdisj⟩ := List.nodup_append.mp hnds
  have hc0l1 : c0 ∉ l₁ := fun h => hdisj h (List.mem_cons_self _ _)
  have hc0l2 : c0 ∉ l₂ := (List.nodup_cons.mp hnd2).1
  have hl1mem : ∀ c ∈ l₁, c ∈ s.clients := fun c hc => by
    rw [hsplit]; exact List.mem_append_left _ hc
  have hl2mem : ∀ c ∈ l₂, c ∈ s.clients := fun c hc => by
    rw [hsplit]; exact List.mem_append_right _ (List.mem_cons_of_mem _ hc)
  have hl1ne : ∀ c ∈ l₁, c ≠ c0 := fun c hc he => hc0l1 (he ▸ hc)
  have hl2ne : ∀ c ∈ l₂, c ≠ c0 := fun c hc he => hc0l2 (he ▸ hc)
  have hl1ok : ∀ c ∈ l₁, sendOk c = true := fun c hc =>
    hothers c (hl1mem c hc) (hl1ne c hc)
  have hl2ok : ∀ c ∈ l₂, sendOk c = true := fun c hc =>
    hothers c (hl2mem c hc) (hl2ne c hc)
  have hl1l2 : ∀ c ∈ l₁, c ∉ l₂ := fun c hc hc2 =>
    hdisj hc (List.mem_cons_of_mem _ hc2)
  have hbc : broadcast sendOk s p now =
      (refreshAll now
          (cleanupConnection (refreshAll now (broadcastLocked s p now) l₁) c0) l₂,
        l₁ ++ l₂, [Event.closeConn c0 1011 "send failure"]) := by
    show broadcastSend sendOk now (broadcastLocked s p now)
      (broadcastLocked s p now).clients = _
    have hcl : (broadcastLocked s p now).clients = l₁ ++ c0 :: l₂ := hsplit
    rw [hcl, broadcastSend_append,
      broadcastSend_all_ok sendOk now l₁ _ hl1ok,
      broadcastSend_cons_fail sendOk now _ l₂ hfail,
      broadcastSend_all_ok sendOk now l₂ _ hl2ok]
    rfl
  -- names for the intermediate states
  have hclients : (broadcast sendOk s p now).1.clients =
      s.clients.filter (fun c => c ≠ c0) := by
    rw [hbc]
    show (refreshAll now _ l₂).clients = _
    rw [(refreshAll_frame now l₂ _).1]
    show ((refreshAll now (broadcastLocked s p now) l₁).clients.filter
      (fun c => c ≠ c0)) = _
    rw [(refreshAll_frame now l₁ _).1]
    rfl
  refine ⟨?_, ?_, ?_, ?_, ?_, ?_, ?_⟩
  · rw [hbc]
    show l₁ ++ l₂ = _
    rw [hsplit, List.filter_append, List.filter_cons]
    rw [if_neg (by simp)]
    rw [List.filter_eq_self.mpr (by intro a ha; simpa using hl1ne a ha),
      List.filter_eq_self.mpr (by intro a ha; simpa using hl2ne a ha)]
  · rw [hclients]
    intro hmem
    have := (List.mem_filter.mp hmem).2
    simp at this
  · rw [hbc]
    show (refreshAll now _ l₂).disconnects = _
    rw [(refreshAll_frame now l₂ _).2.2.1]
    show (if ((c0 ∈ (refreshAll now (broadcastLocked s p now) l₁).clients) ||
        (alookup (refreshAll now (broadcastLocked s p now) l₁).lastHeartbeat c0).isSome : Bool)
      then (refreshAll now (broadcastLocked s p now) l₁).disconnects + 1
      else (refreshAll now (broadcastLocked s p now) l₁).disconnects) = _
    have hc0in : c0 ∈ (refreshAll now (broadcastLocked s p now) l₁).clients := by
      rw [(refreshAll_frame now l₁ _).1]
      exact hc0
    rw [if_pos (by simp [hc0in])]
    rw [(refreshAll_frame now l₁ _).2.2.1]
    rfl
  · rw [hbc]
  · intro c hcmem hcne
    refine ⟨by rw [hclients]; exact List.mem_filter.mpr ⟨hcmem, by simp [hcne]⟩, ?_⟩
    rw [hbc]
    show alookup (refreshAll now
      (cleanupConnection (refreshAll now (broadcastLocked s p now) l₁) c0) l₂).lastHeartbeat c
      = some now
    have hc12 : c ∈ l₁ ∨ c ∈ l₂ := by
      have : c ∈ l₁ ++ c0 :: l₂ := hsplit ▸ hcmem
      rcases List.mem_append.mp this with h | h
      · exact Or.inl h
      · rcases List.mem_cons.mp h with h | h
        · exact absurd h hcne
        · exact Or.inr h
    rcases hc12 with hc1 | hc2
    · rw [refreshAll_lookup_not_mem now _ (hl1l2 c hc1)]
      show alookup (aremove (refreshAll now (broadcastLocked s p now) l₁).lastHeartbeat c0) c
        = some now
      rw [alookup_aremove_ne _ hcne]
      exact refreshAll_lookup_mem now _ hc1 hcmem
    · refine refreshAll_lookup_mem now _ hc2 ?_
      show c ∈ (refreshAll now (broadcastLocked s p now) l₁).clients.filter
        (fun x => x ≠ c0)
      rw [(refreshAll_frame now l₁ _).1]
      exact List.mem_filter.mpr ⟨hcmem, by simp [hcne]⟩
  · rw [hbc]
    show (refreshAll now _ l₂).latestPayload = _
    rw [(refreshAll_frame now l₂ _).2.2.2.2.1]
    show (refreshAll now (broadcastLocked s p now) l₁).latestPayload = _
    rw [(refreshAll_frame now l₁ _).2.2.2.2.1]
    rfl
  · rw [hbc]
    show (refreshAll now _ l₂).messagesSent = _
    rw [(refreshAll_frame now l₂ _).2.2.2.1]
    show (refreshAll now (broadcastLocked s p now) l₁).messagesSent = _
    rw [(refreshAll_frame now l₁ _).2.2.2.1]
    rfl

/-- Witness for `broadcast_failure_isolation`: three registered connections
5, 6, 7 of which connection 6 fails; 5 and 7 still receive the payload and
the disconnect counter rises by exactly one. -/
theorem broadcast_failure_isolation_witness :
    (broadcast failSix threeClients ⟨1, 0, 0⟩ 42).2.1 = [5, 7] ∧
    (broadcast failSix threeClients ⟨1, 0, 0⟩ 42).1.disconnects = 1 := by
  have h := broadcast_failure_isolation threeClients ⟨1, 0, 0⟩ 42 failSix 6
    (by decide) (by decide) (by decide)
    (fun c _ hc => by simp [failSix, hc])
  constructor
  · rw [h.1]
    rfl
  · exact h.2.2.1

/-- C9. Registry coherence invariant: in every state reachable through the
manager's operations (register/add, broadcast-failure cleanup, watchdog
timeout, listener exit, heartbeat refresh, close-all, stop, start), a
connection is a member of the active client set iff it has a heartbeat
entry and iff it has a watchdog handle — the three are added together and
removed together. -/
theorem registry_coherence (s : ManagerState) (h : Reachable s) : coherent s := by
  induction h with
  | refl =>
      intro c
      constructor <;> simp [initialState, alookup]
  | tail hsteps hstep ih =>
      cases hstep with
      | add ws now wid => exact coherent_addConnection ih ws now wid
      | register ws now now2 wid ok =>
          exact coherent_registerEntry ih ws now now2 wid ok
      | cleanup ws => exact coherent_cleanupConnection ih ws
      | heartbeat ws now => exact coherent_updateHeartbeat ih ws now
      | broadcastOp sendOk p now =>
          rename_i t
          show coherent (broadcastSend sendOk now (broadcastLocked t p now)
            (broadcastLocked t p now).clients).1
          exact coherent_broadcastSend (broadcastLocked t p now) ih sendOk now _
      | closeAll reason =>
          rename_i t
          show coherent (closeAllLoop reason t t.clients).1
          exact coherent_closeAllLoop t ih reason t.clients
      | stopOp =>
          rename_i t
          show coherent (closeAllLoop "simulation stopped"
            { t with task := none, currentRequest := none } t.clients).1
          exact coherent_closeAllLoop
            { t with task := none, currentRequest := none } ih
            "simulation stopped" t.clients
      | startOp req tid =>
          rename_i t
          show coherent (closeAllLoop "simulation stopped"
            { t with task := none, currentRequest := none } t.clients).1
          exact coherent_closeAllLoop
            { t with task := none, currentRequest := none } ih
            "simulation stopped" t.clients

/-- Witness for `registry_coherence` one step from the initial state:
after registering connection 7 the three registries agree. -/
theorem registry_coherence_witness :
    Reachable (addConnection initialState 7 0 1) ∧
    coherent (addConnection initialState 7 0 1) :=
  ⟨Relation.ReflTransGen.single (ManagerStep.add initialState 7 0 1),
    registry_coherence (addConnection initialState 7 0 1)
      (Relation.ReflTransGen.single (ManagerStep.add initialState 7 0 1))⟩

/-- C10. Catch-up delivery failure is non-fatal to the new subscriber: when
the catch-up send of the latest payload fails during `register()`, the
exception is suppressed and the connection remains in the active set with
its watchdog recorded and its registration heartbeat in place; it is not
removed and the disconnects counter does not increase — unlike a send
failure during `broadcast()`, which removes the connection. -/
theorem register_catchup_failure_nonfatal (s : ManagerState) (p : Payload)
    (ws : Conn) (now now2 : ℚ) (wid : Nat)
    (hlp : s.latestPayload = some p) :
    ws ∈ (registerEntry s ws now now2 wid false).clients ∧
    alookup (registerEntry s ws now now2 wid false).watchdogs ws = some wid ∧
    alookup (registerEntry s ws now now2 wid false).lastHeartbeat ws = some now ∧
    (registerEntry s ws now now2 wid false).disconnects = s.disconnects ∧
    registerEntry s ws now now2 wid false = addConnection s ws now wid ∧
    (∀ sendOk : Conn → Bool, sendOk ws = false →
      ws ∉ (broadcast sendOk (addConnection s ws now wid) p now2).1.clients) := by
  have hre : registerEntry s ws now now2 wid false = addConnection s ws now wid := by
    simp only [registerEntry]
    have hlp' : (addConnection s ws now wid).latestPayload = some p := hlp
    rw [hlp']
    rw [if_neg (by simp)]
  refine ⟨?_, ?_, ?_, ?_, hre, ?_⟩
  · rw [hre]
    show ws ∈ (if ws ∈ s.clients then s.clients else ws :: s.clients)
    rw [mem_addClients]
    exact Or.inl rfl
  · rw [hre]
    exact alookup_aset_self _ _ _
  · rw [hre]
    exact alookup_aset_self _ _ _
  · rw [hre]
    rfl
  · intro sendOk hfail hmem
    rw [show (broadcast sendOk (addConnection s ws now wid) p now2).1.clients =
        (broadcastLocked (addConnection s ws now wid) p now2).clients.filter
          (fun x => !((broadcastLocked (addConnection s ws now wid) p now2).clients.contains x
            && !sendOk x))
      from broadcastSend_clients sendOk now2 _ _] at hmem
    obtain ⟨hin, hpred⟩ := List.mem_filter.mp hmem
    have hws : ws ∈ (broadcastLocked (addConnection s ws now wid) p now2).clients := hin
    have hcont : ((broadcastLocked (addConnection s ws now wid) p now2).clients.contains ws)
        = true := List.elem_eq_true_of_mem hws
    rw [hcont, hfail] at hpred
    simp at hpred

/-- Witness for `register_catchup_failure_nonfatal` at the concrete state
`afterFirstRun` (latest payload present), registering connection 9 with a
failing catch-up send. -/
theorem register_catchup_failure_nonfatal_witness :
    afterFirstRun.latestPayload = some ⟨3, 0, 0⟩ ∧
    9 ∈ (registerEntry afterFirstRun 9 50 51 4 false).clients ∧
    (registerEntry afterFirstRun 9 50 51 4 false).disconnects =
      afterFirstRun.disconnects := by
  have h := register_catchup_failure_nonfatal afterFirstRun ⟨3, 0, 0⟩ 9 50 51 4 rfl
  exact ⟨rfl, h.1, h.2.2.2.1⟩

/-- C6. For every `limit` and every telemetry table contents,
`telemetry(limit)` returns at most `limit` buckets, in strictly
chronological (oldest-first) order of their timestamps — each bucket
grouping the returned rows that share one timestamp — and every returned
bucket satisfies `profit_cents = revenue_cents - cost_cents` (for the
totals and the finance object), with each region entry's profit likewise
equal to that region's revenue minus cost. -/
theorem telemetry_bucket_properties (table : List TelemetryRow) (limit : Nat) :
    (recent_simulation table limit).length ≤ limit ∧
    ((recent_simulation table limit).map (fun pt => pt.timestamp)).Pairwise (· < ·) ∧
    ∀ pt ∈ recent_simulation table limit,
      pt.profit_cents = pt.revenue_cents - pt.cost_cents ∧
      pt.finance_profit_cents = pt.revenue_cents - pt.cost_cents ∧
      ∀ rp ∈ pt.regions, rp.profit_cents = rp.revenue_cents - rp.cost_cents := by
  have hrowslen : (recent_telemetry table limit).length ≤ limit := by
    unfold recent_telemetry
    exact List.length_take_le limit _
  have hbuildlen : (buildPoints (recent_telemetry table limit).reverse).length ≤ limit := by
    have h := foldl_bucketStep_length (recent_telemetry table limit).reverse []
    rw [List.length_reverse] at h
    simp only [List.length_nil] at h
    exact le_trans h (by omega)
  have hplen : ((buildPoints (recent_telemetry table limit).reverse).map
      finalizePoint).length ≤ limit := by
    rw [List.length_map]
    exact hbuildlen
  have hts : ((buildPoints (recent_telemetry table limit).reverse).map
      finalizePoint).map (fun pt => pt.timestamp) =
      (buildPoints (recent_telemetry table limit).reverse).map
        (fun pt => pt.timestamp) := by
    rw [List.map_map]
    exact List.map_congr_left (fun pt _ => rfl)
  have hsorted : (((buildPoints (recent_telemetry table limit).reverse).map
      finalizePoint).map (fun pt => pt.timestamp)).Pairwise (· < ·) := by
    rw [hts]
    have hasc : ((recent_telemetry table limit).reverse).Pairwise
        (fun a b => a.ts ≤ b.ts) := by
      rw [List.pairwise_reverse]
      exact sorted_recent_telemetry table limit
    exact foldl_bucketStep_sorted _ hasc [] List.Pairwise.nil
      (fun pt hpt => absurd hpt (List.not_mem_nil pt))
  have hmem : ∀ pt ∈ recent_simulation table limit,
      pt ∈ (buildPoints (recent_telemetry table limit).reverse).map finalizePoint := by
    intro pt hpt
    unfold recent_simulation at hpt
    by_cases hl : limit = 0
    · rw [if_pos hl] at hpt
      exact hpt
    · rw [if_neg hl] at hpt
      exact (List.drop_sublist _ _).subset hpt
  refine ⟨?_, ?_, ?_⟩
  · unfold recent_simulation
    by_cases hl : limit = 0
    · rw [if_pos hl]
      exact hplen
    · rw [if_neg hl, List.length_drop]
      omega
  · unfold recent_simulation
    by_cases hl : limit = 0
    · rw [if_pos hl]
      exact hsorted
    · rw [if_neg hl, List.map_drop]
      exact List.Pairwise.sublist (List.drop_sublist _ _) hsorted
  · intro pt hpt
    obtain ⟨q, hq, hqe⟩ := List.mem_map.mp (hmem pt hpt)
    subst hqe
    refine ⟨rfl, rfl, ?_⟩
    intro rp hrp
    exact foldl_bucketStep_regions _ []
      (fun p hp => absurd hp (List.not_mem_nil p)) q hq rp hrp

/-- Witness for `telemetry_bucket_properties` at the concrete
three-row `exampleTable` and the default limit 200. -/
theorem telemetry_bucket_properties_witness :
    (recent_simulation exampleTable 200).length ≤ 200 ∧
    ((recent_simulation exampleTable 200).map (fun pt => pt.timestamp)).Pairwise (· < ·) ∧
    ∀ pt ∈ recent_simulation exampleTable 200,
      pt.profit_cents = pt.revenue_cents - pt.cost_cents ∧
      pt.finance_profit_cents = pt.revenue_cents - pt.cost_cents ∧
      ∀ rp ∈ pt.regions, rp.profit_cents = rp.revenue_cents - rp.cost_cents :=
  telemetry_bucket_properties exampleTable 200

end GpuReseller
